import Mathlib

/-!
Verification development for the kimi-skills repository.

The two non-trivial components are embedded shallowly:

* `src/skills/pdf/scripts/browser_helper.js` — the Chromium resolver
  (`resolveChromium`, `findExistingChromium`, `addCandidate`, revision
  scoring and the candidate ranking comparator).
* `src/skills/kimi-pdf/scripts/html_to_pdf.js` — the HTML-to-PDF driver
  (`convertHTMLToPDF`): input checking, exit codes, the browser
  try/catch/finally lifecycle and the Paged.js pagination polling loop.

Filesystem reads (fs.existsSync, fs.accessSync X_OK) are modelled by an
abstract filesystem record of Boolean predicates on paths; directory
enumeration (cache directories, system locations) is abstracted as the
lists of entries it yields, which are exactly the inputs the embedded
functions consume.  JavaScript numbers that hold revision counts are
modelled as exact integers.
-/

namespace KimiSkills

/-! ## Pagination polling loop (html_to_pdf.js, lines 410-440)

The loop state is `lastPageCount` (initially 0) and `stableCount`
(initially 0).  While `stableCount < 3` the loop samples the rendered
page count; a sample equal to `lastPageCount` increments `stableCount`,
any other sample resets `stableCount` to 0 and records the new count.
The real loop also breaks on a wall-clock timeout; feeding the model a
finite list of samples models the samples observed before that timeout,
so exhausting the list without reaching `stableCount = 3` corresponds to
the timeout path. -/

/-- Final state of the pagination polling loop: the recorded
`lastPageCount`, the final `stableCount`, and whether the loop exited
because stability was declared (`stableCount` reached 3). -/
structure PollResult where
  lastPageCount : Nat
  stableCount : Nat
  stable : Bool
  deriving DecidableEq, Repr

/-- The pagination polling loop of `convertHTMLToPDF`, driven by a
simulated list of page-count samples. -/
def paginationPoll (last stable : Nat) : List Nat → PollResult
  | [] => ⟨last, stable, decide (3 ≤ stable)⟩
  | c :: cs =>
    if 3 ≤ stable then ⟨last, stable, true⟩
    else if c = last then paginationPoll last (stable + 1) cs
    else paginationPoll c 0 cs

/-- Specification-side predicate: the list contains four consecutive
equal elements. -/
def fourRun (l : List Nat) : Prop :=
  ∃ xs v ys, l = xs ++ v :: v :: v :: v :: ys

/-! ## Browser resolver (browser_helper.js)

The filesystem is abstracted as two Boolean predicates on paths:
`existsSync` models `fs.existsSync`, and `isExec` models whether a path
is executable, so that a successful `fs.accessSync(p, fs.constants.X_OK)`
call (which succeeds exactly on an existing, executable path) is
`existsSync p && isExec p`.  Directory enumeration
(`getBrowserCacheDirectories` plus `collectCacheExecutables`, and
`collectSystemBrowsers`) is abstracted as the list of entries it yields:
cache entries carry the revision extracted from the cache directory name,
system and environment entries carry no revision, exactly as in the
source. -/

/-- Abstract filesystem: existence and executability of paths. -/
structure FS where
  existsSync : String → Bool
  isExec : String → Bool

/-- Success of `fs.accessSync(p, fs.constants.X_OK)`: the path exists and
is executable. -/
def FS.accessX (fs : FS) (p : String) : Bool :=
  fs.existsSync p && fs.isExec p

/-- The three environment-variable overrides consulted by
`findExistingChromium`, in order: PLAYWRIGHT_CHROMIUM_PATH,
CHROMIUM_PATH, BROWSER_PATH.  `none` models an unset variable. -/
structure EnvOverrides where
  playwrightChromiumPath : Option String
  chromiumPath : Option String
  browserPath : Option String

/-- A candidate executable: path, optional extracted revision, and
provenance tag, mirroring the objects pushed by `addCandidate`. -/
structure Candidate where
  path : String
  revision : Option Int
  source : String
  deriving DecidableEq, Repr

/-- State threaded through `addCandidate`: the `seen` set and the
`candidates` list. -/
structure AddState where
  seen : List String
  candidates : List Candidate
  deriving DecidableEq, Repr

/-- `addCandidate` (browser_helper.js lines 143-152): skip falsy or
already-seen paths, skip paths that fail the X_OK access check, otherwise
record the candidate and mark the path seen. -/
def addCandidate (fs : FS) (st : AddState) (candidatePath : String)
    (revision : Option Int) (source : String) : AddState :=
  if candidatePath = "" ∨ candidatePath ∈ st.seen then st
  else if fs.accessX candidatePath then
    { seen := st.seen ++ [candidatePath],
      candidates := st.candidates ++ [⟨candidatePath, revision, source⟩] }
  else st

/-- The environment-override paths that pass the JavaScript truthiness
check `if (process.env[envName])` (unset and empty values are skipped),
in the order the source iterates them. -/
def envCandidatePaths (env : EnvOverrides) : List String :=
  (([env.playwrightChromiumPath, env.chromiumPath, env.browserPath]).filterMap id).filter
    (fun p => p ≠ "")

/-- The raw `(path, revision, source)` triples fed to `addCandidate`, in
source order: environment overrides (revision null), cache executables
(revision from the cache directory name), system browsers (revision
null). -/
def candidateInputs (env : EnvOverrides) (cacheEntries : List (String × Option Int))
    (systemPaths : List String) : List (String × Option Int × String) :=
  (envCandidatePaths env).map (fun p => (p, none, "env"))
    ++ cacheEntries.map (fun e => (e.1, e.2, "cache"))
    ++ systemPaths.map (fun p => (p, none, "system"))

/-- Folding `addCandidate` over a list of raw inputs. -/
def addAll (fs : FS) (st : AddState) (inputs : List (String × Option Int × String)) :
    AddState :=
  inputs.foldl (fun s i => addCandidate fs s i.1 i.2.1 i.2.2) st

/-- Folding `addCandidate` over the raw inputs from the empty state:
the candidate list built by `findExistingChromium`. -/
def collectCandidates (fs : FS) (inputs : List (String × Option Int × String)) :
    List Candidate :=
  (addAll fs ⟨[], []⟩ inputs).candidates

/-- `Number.MAX_SAFE_INTEGER`. -/
def MAX_SAFE_INTEGER : Int := 9007199254740991

/-- The `score` closure of `findExistingChromium` (lines 170-178): with a
known expected revision and a known candidate revision, the absolute
difference; with only a candidate revision, `100000 - revision`; unknown
revisions score `Number.MAX_SAFE_INTEGER`. -/
def score (expectedRevision : Option Int) (c : Candidate) : Int :=
  match expectedRevision, c.revision with
  | some er, some r => ((r - er).natAbs : Int)
  | _, some r => 100000 - r
  | _, none => MAX_SAFE_INTEGER

/-- `candidate.revision || 0`: the revision with null mapped to 0. -/
def revD (c : Candidate) : Int :=
  match c.revision with
  | some r => r
  | none => 0

/-- The sort comparator of `findExistingChromium` (lines 180-186):
ascending by score, ties broken by descending revision. -/
def candCompare (expectedRevision : Option Int) (a b : Candidate) : Int :=
  let diff := score expectedRevision a - score expectedRevision b
  if diff ≠ 0 then diff else revD b - revD a

/-- Stable insertion used to model `Array.prototype.sort` (which is
stable): an element is inserted before the first element strictly
greater than it under the comparator, hence after all earlier equal
elements. -/
def insertC {α : Type} (cmp : α → α → Int) (x : α) : List α → List α
  | [] => [x]
  | y :: ys => if cmp x y ≤ 0 then x :: y :: ys else y :: insertC cmp x ys

/-- Stable comparator sort modelling `Array.prototype.sort(cmp)`. -/
def sortC {α : Type} (cmp : α → α → Int) : List α → List α
  | [] => []
  | x :: xs => insertC cmp x (sortC cmp xs)

/-- The ranking step of `findExistingChromium` (lines 166-188): null when
the candidate list is empty, otherwise the first candidate after the
comparator sort. -/
def rankCandidates (expectedRevision : Option Int) (candidates : List Candidate) :
    Option Candidate :=
  if candidates.isEmpty then none
  else (sortC (candCompare expectedRevision) candidates).head?

/-- `findExistingChromium` (lines 139-189): build the candidate list and
rank it. -/
def findExistingChromium (fs : FS) (env : EnvOverrides)
    (cacheEntries : List (String × Option Int)) (systemPaths : List String)
    (expectedRevision : Option Int) : Option Candidate :=
  rankCandidates expectedRevision
    (collectCandidates fs (candidateInputs env cacheEntries systemPaths))

/-- Case-insensitive literal prefix match on character lists; returns the
remaining characters on success. -/
def matchCI : List Char → List Char → Option (List Char)
  | [], s => some s
  | _ :: _, [] => none
  | p :: ps, c :: cs => if c.toLower = p.toLower then matchCI ps cs else none

/-- Digits to a natural number, as `parseInt(_, 10)` on a digit string. -/
def digitsToNat (ds : List Char) : Nat :=
  ds.foldl (fun n c => n * 10 + (c.toNat - 48)) 0

/-- Try one alternation branch of the revision regex at the current
position: the literal pattern, then a hyphen, then at least one digit
(matched greedily). -/
def tryRevisionPat (pat : String) (s : List Char) : Option Nat :=
  match matchCI pat.data s with
  | none => none
  | some rest =>
    match rest with
    | '-' :: rest2 =>
      let ds := rest2.takeWhile Char.isDigit
      if ds.isEmpty then none else some (digitsToNat ds)
    | _ => none

/-- Try the three alternation branches of
`/(?:chromium|chrome|chromium_headless_shell)-(\d+)/i` in regex order at
one position. -/
def tryRevisionAlts (s : List Char) : Option Nat :=
  match tryRevisionPat "chromium" s with
  | some n => some n
  | none =>
    match tryRevisionPat "chrome" s with
    | some n => some n
    | none => tryRevisionPat "chromium_headless_shell" s

/-- Leftmost regex search: scan positions left to right and take the
first position where an alternation branch matches. -/
def scanRevision : List Char → Option Nat
  | [] => none
  | c :: cs =>
    match tryRevisionAlts (c :: cs) with
    | some n => some n
    | none => scanRevision cs

/-- `extractRevisionFromPath` (lines 66-70): null or empty input gives
null, otherwise the first match of the revision regex, parsed as a
number. -/
def extractRevisionFromPath (input : Option String) : Option Int :=
  match input with
  | none => none
  | some s => if s = "" then none else (scanRevision s.data).map Int.ofNat

/-- A resolution result as returned by `resolveChromium`. -/
structure ResolveResult where
  status : String
  executablePath : String
  revision : Option Int
  expectedRevision : Option Int
  isFallback : Bool
  source : String
  deriving DecidableEq, Repr

/-- `value || null` on an optional revision: null stays null and the
falsy revision 0 also becomes null. -/
def jsOrNull (r : Option Int) : Option Int :=
  match r with
  | some v => if v = 0 then none else some v
  | none => none

/-- The truthiness-and-existence guard `expectedPath &&
fs.existsSync(expectedPath)`. -/
def expectedPathOk (fs : FS) (p : Option String) : Bool :=
  match p with
  | some s => (s ≠ "" : Bool) && fs.existsSync s
  | none => false

/-- `resolveChromium` (browser_helper.js lines 72-137).

`expectedPath` is `getDefaultChromiumPath(chromium)`, abstracted as an
input since it only queries the Playwright library.  `fsPost` is the
filesystem as it stands after the synchronous `npx playwright install
chromium` run, whose exit status is `installStatus`; the re-computed
`getDefaultChromiumPath` value after installation is the same
`expectedPath`, since Playwright derives it deterministically from its
configuration.  The returned Boolean records whether the installer was
invoked; a thrown error (code INSTALL_FAILED) is the `Except.error`
case. -/
def resolveChromium (fs fsPost : FS) (expectedPath : Option String)
    (env : EnvOverrides) (cacheEntries : List (String × Option Int))
    (systemPaths : List String) (allowInstall : Bool) (installStatus : Int) :
    Bool × Except String ResolveResult :=
  let expectedRevision := extractRevisionFromPath expectedPath
  if expectedPathOk fs expectedPath then
    (false, .ok
      { status := "ok", executablePath := expectedPath.getD "",
        revision := extractRevisionFromPath expectedPath,
        expectedRevision := expectedRevision, isFallback := false,
        source := "default" })
  else
    match findExistingChromium fs env cacheEntries systemPaths expectedRevision with
    | some fallback =>
      (false, .ok
        { status := "fallback", executablePath := fallback.path,
          revision := jsOrNull fallback.revision,
          expectedRevision := expectedRevision, isFallback := true,
          source := fallback.source })
    | none =>
      if !allowInstall then
        (false, .ok
          { status := "missing", executablePath := expectedPath.getD "",
            revision := none, expectedRevision := expectedRevision,
            isFallback := false, source := "missing" })
      else if installStatus = 0 && expectedPathOk fsPost expectedPath then
        (true, .ok
          { status := "installed", executablePath := expectedPath.getD "",
            revision := extractRevisionFromPath expectedPath,
            expectedRevision := extractRevisionFromPath expectedPath,
            isFallback := false, source := "install" })
      else
        (true, .error "INSTALL_FAILED")

/-- Invariant relating the `seen` set to the candidate list. -/
def SeenInv (st : AddState) : Prop :=
  ∀ q, q ∈ st.seen ↔ ∃ c ∈ st.candidates, c.path = q

/-! ## Driver control flow (html_to_pdf.js, `convertHTMLToPDF`)

The effects of `convertHTMLToPDF` are modelled as an event trace plus a
control outcome.  `Control.exited n` models `process.exit(n)`, which in
Node terminates the process immediately: no further statement runs, and
in particular pending `finally` blocks do not execute.  The work done
inside the `try` block between `browser.newPage()` and the PDF export is
abstracted as an arbitrary trace-and-outcome pair, since no statement in
the `try` block calls `process.exit`. -/

/-- Observable events of the driver. -/
inductive Ev where
  | resolveBrowser
  | launchBrowser
  | exportPdf
  | closeBrowser
  | consoleError
  | consoleLog
  deriving DecidableEq, Repr

/-- Control outcome of a block: fall-through, a thrown exception, or an
immediate process termination with an exit code. -/
inductive Control where
  | normal
  | thrown
  | exited (code : Nat)
  deriving DecidableEq, Repr

/-- Semantics of JavaScript `try { t } catch { c } finally { f }` under
the Node rule that `process.exit` terminates immediately: a thrown try
block is handled by the catch block; the finally block then runs unless
the pending control is an exit, in which case it is skipped. -/
def runTryCatchFinally (t c f : List Ev × Control) : List Ev × Control :=
  let afterCatch :=
    match t.2 with
    | .thrown => (t.1 ++ c.1, c.2)
    | x => (t.1, x)
  match afterCatch.2 with
  | .exited n => (afterCatch.1, .exited n)
  | x =>
    (afterCatch.1 ++ f.1,
      match f.2 with
      | .normal => x
      | y => y)

/-- The try/catch/finally of `convertHTMLToPDF` (lines 182-589) around a
launched browser: the catch block logs the failure and calls
`process.exit(1)`; the finally block awaits `browser.close()`. -/
def convertFinish (tryBody : List Ev × Control) : List Ev × Control :=
  runTryCatchFinally tryBody ([.consoleError], .exited 1) ([.closeBrowser], .normal)

/-- `convertHTMLToPDF` (lines 83-590) as a trace function.

* `inputExists` — `fs.existsSync(inputFile)`;
* `browserStatus` — the status of the `resolveChromium` result;
* `cssCheck` — `none` when no custom CSS is passed, otherwise
  `some (fs.existsSync customCSS)`;
* `launchOk` — whether `chromium.launch` succeeds (all three launch
  failure classifications exit with code 1);
* `tryBody` — trace and outcome of the conversion work inside the try
  block. -/
def convertHTMLToPDFModel (inputExists : Bool) (browserStatus : String)
    (cssCheck : Option Bool) (launchOk : Bool) (tryBody : List Ev × Control) :
    List Ev × Control :=
  if !inputExists then ([.consoleError], .exited 1)
  else
    let pre : List Ev := [.resolveBrowser]
    if browserStatus = "missing" then (pre ++ [.consoleError], .exited 2)
    else
      match cssCheck with
      | some false => (pre ++ [.consoleError], .exited 1)
      | _ =>
        if !launchOk then (pre ++ [.consoleError], .exited 1)
        else
          let fin := convertFinish tryBody
          (pre ++ [.launchBrowser] ++ fin.1, fin.2)


/-! ## Concrete fixtures used by witness theorems -/

/-- A filesystem with nothing on it. -/
def fsEmpty : FS := ⟨fun _ => false, fun _ => false⟩

/-- A filesystem holding exactly the expected Playwright executable. -/
def fsExp : FS :=
  ⟨fun q => q == "/exp/chromium-1000/chrome", fun q => q == "/exp/chromium-1000/chrome"⟩

/-- A filesystem holding an environment-override binary and one cache
executable. -/
def fsCache : FS :=
  ⟨fun q => q == "/cache/chromium-1000/chrome" || q == "/env/custom-browser",
   fun q => q == "/cache/chromium-1000/chrome" || q == "/env/custom-browser"⟩

/-- No environment overrides set. -/
def envNone : EnvOverrides := ⟨none, none, none⟩

/-- PLAYWRIGHT_CHROMIUM_PATH set to an override binary. -/
def envOverride : EnvOverrides := ⟨some "/env/custom-browser", none, none⟩

/-! ## Theorems -/

theorem fourRun_nil_false : ¬ fourRun [] := by
  rintro ⟨xs, v, ys, h⟩
  cases xs <;> simp_all

theorem fourRun_cons (c : Nat) (l : List Nat) :
    fourRun (c :: l) ↔ (∃ t, l = c :: c :: c :: t) ∨ fourRun l := by
  constructor
  · rintro ⟨xs, v, ys, h⟩
    cases xs with
    | nil =>
      simp only [List.nil_append, List.cons.injEq] at h
      obtain ⟨rfl, hl⟩ := h
      exact Or.inl ⟨ys, hl⟩
    | cons x xs =>
      simp only [List.cons_append, List.cons.injEq] at h
      exact Or.inr ⟨xs, v, ys, h.2⟩
  · rintro (⟨t, ht⟩ | ⟨xs, v, ys, h⟩)
    · exact ⟨[], c, t, by simp [ht]⟩
    · exact ⟨c :: xs, v, ys, by simp [h]⟩

/-- Generalised characterisation of the polling loop: starting from state
`(last, stable)`, stability is declared exactly when the samples start
with `3 - stable` copies of `last`, or contain four consecutive equal
samples somewhere. -/
theorem paginationPoll_stable_iff (cs : List Nat) :
    ∀ last stable,
      (paginationPoll last stable cs).stable = true ↔
        ((∃ t, cs = List.replicate (3 - stable) last ++ t) ∨ fourRun cs) := by
  induction cs with
  | nil =>
    intro last stable
    simp only [paginationPoll, decide_eq_true_eq]
    constructor
    · intro h3
      refine Or.inl ⟨[], ?_⟩
      simp [Nat.sub_eq_zero_of_le h3]
    · rintro (⟨t, ht⟩ | hfr)
      · rcases List.append_eq_nil.mp ht.symm with ⟨h1, _⟩
        have : 3 - stable = 0 := by
          simpa using congrArg List.length h1
        omega
      · exact absurd hfr fourRun_nil_false
  | cons c cs ih =>
    intro last stable
    by_cases h3 : 3 ≤ stable
    · have hz : 3 - stable = 0 := by omega
      simp only [paginationPoll, if_pos h3]
      constructor
      · intro _
        exact Or.inl ⟨c :: cs, by simp [hz]⟩
      · intro _
        trivial
    · have hlt : stable < 3 := by omega
      have hrep : 3 - stable = (3 - (stable + 1)) + 1 := by omega
      by_cases hc : c = last
      · subst hc
        simp only [paginationPoll, if_neg h3, eq_self_iff_true, if_true]
        rw [ih c (stable + 1), fourRun_cons]
        constructor
        · rintro (⟨t, ht⟩ | hfr)
          · refine Or.inl ⟨t, ?_⟩
            rw [hrep, List.replicate_succ, List.cons_append, ht]
          · exact Or.inr (Or.inr hfr)
        · rintro (⟨t, ht⟩ | ⟨t, ht⟩ | hfr)
          · refine Or.inl ⟨t, ?_⟩
            rw [hrep, List.replicate_succ, List.cons_append] at ht
            exact (List.cons.injEq _ _ _ _).mp ht |>.2
          · -- a fresh run of three after the head absorbs into the prefix
            refine Or.inl ⟨List.replicate (3 - (3 - (stable + 1))) c ++ t, ?_⟩
            rw [ht, ← List.append_assoc, ← List.replicate_add]
            have : (3 - (stable + 1)) + (3 - (3 - (stable + 1))) = 3 := by omega
            rw [this]
            simp [List.replicate_succ]
          · exact Or.inr hfr
      · simp only [paginationPoll, if_neg h3, if_neg hc]
        rw [ih c 0, fourRun_cons]
        constructor
        · rintro (⟨t, ht⟩ | hfr)
          · refine Or.inr (Or.inl ⟨t, ?_⟩)
            simpa [List.replicate] using ht
          · exact Or.inr (Or.inr hfr)
        · rintro (⟨t, ht⟩ | ⟨t, ht⟩ | hfr)
          · exfalso
            rw [hrep, List.replicate_succ, List.cons_append] at ht
            exact hc ((List.cons.injEq _ _ _ _).mp ht).1
          · exact Or.inl ⟨t, by simpa [List.replicate] using ht⟩
          · exact Or.inr hfr

/-! ## Properties of the comparator and of the stable sort -/

theorem candCompare_le_iff (er : Option Int) (a b : Candidate) :
    candCompare er a b ≤ 0 ↔
      (score er a < score er b ∨ (score er a = score er b ∧ revD b ≤ revD a)) := by
  simp only [candCompare]
  split
  · rename_i h
    omega
  · rename_i h
    omega

theorem candCompare_lt_iff (er : Option Int) (a b : Candidate) :
    candCompare er a b < 0 ↔
      (score er a < score er b ∨ (score er a = score er b ∧ revD b < revD a)) := by
  simp only [candCompare]
  split
  · rename_i h
    omega
  · rename_i h
    omega

theorem candCompare_total (er : Option Int) (a b : Candidate) :
    candCompare er a b ≤ 0 ∨ candCompare er b a ≤ 0 := by
  rw [candCompare_le_iff, candCompare_le_iff]
  omega

theorem candCompare_trans (er : Option Int) (a b c : Candidate)
    (h1 : candCompare er a b ≤ 0) (h2 : candCompare er b c ≤ 0) :
    candCompare er a c ≤ 0 := by
  rw [candCompare_le_iff] at h1 h2 ⊢
  omega

theorem candCompare_le_score (er : Option Int) (a b : Candidate)
    (h : candCompare er a b ≤ 0) : score er a ≤ score er b := by
  rw [candCompare_le_iff] at h
  omega

theorem insertC_perm {α : Type} (cmp : α → α → Int) (x : α) (l : List α) :
    List.Perm (insertC cmp x l) (x :: l) := by
  induction l with
  | nil => simp [insertC]
  | cons y ys ih =>
    simp only [insertC]
    split
    · exact List.Perm.refl _
    · exact (List.Perm.cons y ih).trans (List.Perm.swap x y ys)

theorem sortC_perm {α : Type} (cmp : α → α → Int) (l : List α) :
    List.Perm (sortC cmp l) l := by
  induction l with
  | nil => simp [sortC]
  | cons x xs ih =>
    exact (insertC_perm cmp x (sortC cmp xs)).trans (List.Perm.cons x ih)

theorem insertC_pairwise {α : Type} {cmp : α → α → Int}
    (htot : ∀ a b, cmp a b ≤ 0 ∨ cmp b a ≤ 0)
    (htr : ∀ a b c, cmp a b ≤ 0 → cmp b c ≤ 0 → cmp a c ≤ 0)
    (x : α) {l : List α} (h : l.Pairwise (fun a b => cmp a b ≤ 0)) :
    (insertC cmp x l).Pairwise (fun a b => cmp a b ≤ 0) := by
  induction l with
  | nil => simp [insertC]
  | cons y ys ih =>
    rcases List.pairwise_cons.mp h with ⟨hy, hys⟩
    simp only [insertC]
    split
    · rename_i hxy
      refine List.pairwise_cons.mpr ⟨?_, h⟩
      intro z hz
      rcases List.mem_cons.mp hz with rfl | hz2
      · exact hxy
      · exact htr _ _ _ hxy (hy z hz2)
    · rename_i hxy
      refine List.pairwise_cons.mpr ⟨?_, ih hys⟩
      intro z hz
      have hz2 := (insertC_perm cmp x ys).mem_iff.mp hz
      rcases List.mem_cons.mp hz2 with rfl | hz3
      · rcases htot z y with h1 | h2
        · exact absurd h1 hxy
        · exact h2
      · exact hy z hz3

theorem sortC_pairwise {α : Type} {cmp : α → α → Int}
    (htot : ∀ a b, cmp a b ≤ 0 ∨ cmp b a ≤ 0)
    (htr : ∀ a b c, cmp a b ≤ 0 → cmp b c ≤ 0 → cmp a c ≤ 0)
    (l : List α) : (sortC cmp l).Pairwise (fun a b => cmp a b ≤ 0) := by
  induction l with
  | nil => simp [sortC]
  | cons x xs ih => exact insertC_pairwise htot htr x ih

theorem sortC_head_min {α : Type} {cmp : α → α → Int}
    (htot : ∀ a b, cmp a b ≤ 0 ∨ cmp b a ≤ 0)
    (htr : ∀ a b c, cmp a b ≤ 0 → cmp b c ≤ 0 → cmp a c ≤ 0)
    {l : List α} {m : α} {t : List α} (hs : sortC cmp l = m :: t) :
    ∀ x ∈ l, cmp m x ≤ 0 := by
  intro x hx
  have hp := sortC_pairwise htot htr l
  rw [hs] at hp
  have hx2 : x ∈ m :: t := by
    rw [← hs]
    exact (sortC_perm cmp l).mem_iff.mpr hx
  rcases List.mem_cons.mp hx2 with rfl | hx3
  · rcases htot x x with h | h <;> exact h
  · exact (List.pairwise_cons.mp hp).1 x hx3

/-! ## Properties of the candidate collection -/

theorem addCandidate_sub (fs : FS) (st : AddState) (p : String)
    (r : Option Int) (s : String) :
    ∀ c ∈ st.candidates, c ∈ (addCandidate fs st p r s).candidates := by
  intro c hc
  unfold addCandidate
  split
  · exact hc
  · split
    · simpa using Or.inl hc
    · exact hc

theorem addAll_sub (fs : FS) (inputs : List (String × Option Int × String)) :
    ∀ st : AddState, ∀ c ∈ st.candidates, c ∈ (addAll fs st inputs).candidates := by
  induction inputs with
  | nil => intro st c hc; exact hc
  | cons i is ih =>
    intro st c hc
    exact ih _ _ (addCandidate_sub fs st i.1 i.2.1 i.2.2 c hc)

theorem addCandidate_exec (fs : FS) (st : AddState) (p : String)
    (r : Option Int) (s : String)
    (h : ∀ c ∈ st.candidates, fs.accessX c.path = true) :
    ∀ c ∈ (addCandidate fs st p r s).candidates, fs.accessX c.path = true := by
  intro c hc
  unfold addCandidate at hc
  split at hc
  · exact h c hc
  · split at hc
    · rename_i hacc
      simp only [List.mem_append, List.mem_singleton] at hc
      rcases hc with hc | rfl
      · exact h c hc
      · exact hacc
    · exact h c hc

theorem addAll_exec (fs : FS) (inputs : List (String × Option Int × String)) :
    ∀ st : AddState, (∀ c ∈ st.candidates, fs.accessX c.path = true) →
      ∀ c ∈ (addAll fs st inputs).candidates, fs.accessX c.path = true := by
  induction inputs with
  | nil => intro st h c hc; exact h c hc
  | cons i is ih =>
    intro st h c hc
    exact ih _ (addCandidate_exec fs st i.1 i.2.1 i.2.2 h) c hc

theorem collect_exec (fs : FS) (inputs : List (String × Option Int × String)) :
    ∀ c ∈ collectCandidates fs inputs, fs.accessX c.path = true := by
  intro c hc
  exact addAll_exec fs inputs ⟨[], []⟩ (by intro c hc; simp at hc) c hc

theorem addCandidate_mem_src (fs : FS) (st : AddState) (p : String)
    (r : Option Int) (s : String) :
    ∀ c ∈ (addCandidate fs st p r s).candidates,
      c ∈ st.candidates ∨ c = ⟨p, r, s⟩ := by
  intro c hc
  unfold addCandidate at hc
  split at hc
  · exact Or.inl hc
  · split at hc
    · simp only [List.mem_append, List.mem_singleton] at hc
      exact hc
    · exact Or.inl hc

theorem addAll_mem_src (fs : FS) (inputs : List (String × Option Int × String)) :
    ∀ st : AddState, ∀ c ∈ (addAll fs st inputs).candidates,
      c ∈ st.candidates ∨ ∃ i ∈ inputs, c = ⟨i.1, i.2.1, i.2.2⟩ := by
  induction inputs with
  | nil => intro st c hc; exact Or.inl hc
  | cons i is ih =>
    intro st c hc
    rcases ih _ c hc with hmem | ⟨j, hj, hcj⟩
    · rcases addCandidate_mem_src fs st i.1 i.2.1 i.2.2 c hmem with h1 | h2
      · exact Or.inl h1
      · exact Or.inr ⟨i, List.mem_cons_self i is, h2⟩
    · exact Or.inr ⟨j, List.mem_cons_of_mem i hj, hcj⟩

theorem collect_mem_inputs (fs : FS) (inputs : List (String × Option Int × String))
    {c : Candidate} (hc : c ∈ collectCandidates fs inputs) :
    (c.path, c.revision, c.source) ∈ inputs := by
  rcases addAll_mem_src fs inputs ⟨[], []⟩ c hc with h | ⟨i, hi, rfl⟩
  · simp at h
  · simpa using hi

theorem addCandidate_seenInv {st : AddState} (h : SeenInv st) (fs : FS)
    (p : String) (r : Option Int) (s : String) :
    SeenInv (addCandidate fs st p r s) := by
  unfold addCandidate
  split
  · exact h
  · split
    · intro q
      simp only [List.mem_append, List.mem_singleton, h q]
      constructor
      · rintro (⟨c, hc, hcp⟩ | rfl)
        · exact ⟨c, Or.inl hc, hcp⟩
        · exact ⟨⟨q, r, s⟩, Or.inr rfl, rfl⟩
      · rintro ⟨c, hc | rfl, hcp⟩
        · exact Or.inl ⟨c, hc, hcp⟩
        · exact Or.inr hcp.symm
    · exact h

theorem addAll_path_mem (fs : FS) (inputs : List (String × Option Int × String)) :
    ∀ st : AddState, SeenInv st →
      ∀ p r s, (p, r, s) ∈ inputs → p ≠ "" → fs.accessX p = true →
        ∃ c ∈ (addAll fs st inputs).candidates, c.path = p := by
  induction inputs with
  | nil => intro st _ p r s hmem; simp at hmem
  | cons i is ih =>
    intro st hinv p r s hmem hp hx
    rcases List.mem_cons.mp hmem with heq | htail
    · have hstep : ∃ c ∈ (addCandidate fs st i.1 i.2.1 i.2.2).candidates, c.path = p := by
        obtain rfl : i = (p, r, s) := heq.symm
        unfold addCandidate
        by_cases h1 : p = "" ∨ p ∈ st.seen
        · rcases h1 with h1 | h1
          · exact absurd h1 hp
          · rw [if_pos (Or.inr h1)]
            exact (hinv p).mp h1
        · rw [if_neg h1]
          simp only [hx, if_pos]
          exact ⟨⟨p, r, s⟩, by simp, rfl⟩
      obtain ⟨c, hc, hcp⟩ := hstep
      exact ⟨c, addAll_sub fs is _ c hc, hcp⟩
    · exact ih _ (addCandidate_seenInv hinv fs i.1 i.2.1 i.2.2) p r s htail hp hx

theorem collect_path_mem (fs : FS) (inputs : List (String × Option Int × String))
    {p : String} {r : Option Int} {s : String}
    (hmem : (p, r, s) ∈ inputs) (hp : p ≠ "") (hx : fs.accessX p = true) :
    ∃ c ∈ collectCandidates fs inputs, c.path = p := by
  refine addAll_path_mem fs inputs ⟨[], []⟩ ?_ p r s hmem hp hx
  intro q
  simp

/-- When the candidate list is non-empty, `findExistingChromium` returns
its comparator-minimal candidate. -/
theorem findExisting_min (fs : FS) (env : EnvOverrides)
    (cacheEntries : List (String × Option Int)) (systemPaths : List String)
    (er : Option Int) {c0 : Candidate}
    (h : c0 ∈ collectCandidates fs (candidateInputs env cacheEntries systemPaths)) :
    ∃ m, findExistingChromium fs env cacheEntries systemPaths er = some m ∧
      m ∈ collectCandidates fs (candidateInputs env cacheEntries systemPaths) ∧
      ∀ x ∈ collectCandidates fs (candidateInputs env cacheEntries systemPaths),
        candCompare er m x ≤ 0 := by
  have hne : collectCandidates fs (candidateInputs env cacheEntries systemPaths) ≠ [] := by
    intro h0
    rw [h0] at h
    simp at h
  cases hsort : sortC (candCompare er)
      (collectCandidates fs (candidateInputs env cacheEntries systemPaths)) with
  | nil =>
    exfalso
    have := (sortC_perm (candCompare er)
      (collectCandidates fs (candidateInputs env cacheEntries systemPaths))).length_eq
    rw [hsort] at this
    exact hne (List.length_eq_zero.mp this.symm)
  | cons m t =>
    refine ⟨m, ?_, ?_, ?_⟩
    · unfold findExistingChromium rankCandidates
      rw [if_neg (by simpa [List.isEmpty_iff] using hne), hsort]
      rfl
    · have : m ∈ m :: t := List.mem_cons_self m t
      rw [← hsort] at this
      exact (sortC_perm (candCompare er) _).mem_iff.mp this
    · exact sortC_head_min (candCompare_total er) (candCompare_trans er) hsort

theorem MSI_eq : MAX_SAFE_INTEGER = 9007199254740991 := rfl

theorem score_rev_none (R : Int) (c : Candidate) (h : c.revision = none) :
    score (some R) c = MAX_SAFE_INTEGER := by
  simp [score, h]

theorem score_rev_some (R rr : Int) (c : Candidate) (h : c.revision = some rr) :
    score (some R) c = ((rr - R).natAbs : Int) := by
  simp [score, h]

/-! ## Claims -/

/-- C1, counterexample: feeding the polling loop the simulated sample
sequence [3, 5, 5, 5] does not declare pagination stable — the loop ends
with stableCount = 2, not 3, even though the observed count was unchanged
across three consecutive checks (the three samples of 5). -/
theorem C1_counterexample :
    paginationPoll 0 0 [3, 5, 5, 5] = ⟨5, 2, false⟩ := by
  rfl

/-- C1, amended: the loop declares pagination stable exactly when some
count repeats across four consecutive observations, counting the initial
lastPageCount of 0 as an observation before the first sample (a change to
a new count resets stableCount, so three further equal samples are needed
after the sample that set the count); for [3, 5, 5, 5, 5] stability is
declared after the count holds at 5 for four checks. -/
theorem C1_amended :
    (∀ cs : List Nat,
        (paginationPoll 0 0 cs).stable = true ↔ fourRun (0 :: cs)) ∧
    paginationPoll 0 0 [3, 5, 5, 5, 5] = ⟨5, 3, true⟩ := by
  constructor
  · intro cs
    rw [paginationPoll_stable_iff cs 0 0, fourRun_cons]
    constructor
    · rintro (⟨t, ht⟩ | hfr)
      · exact Or.inl ⟨t, ht⟩
      · exact Or.inr hfr
    · rintro (⟨t, ht⟩ | hfr)
      · exact Or.inl ⟨t, ht⟩
      · exact Or.inr hfr
  · rfl

/-- C2: when the expected executable path exists on the filesystem and is
executable, `resolveChromium` returns status ok with exactly that path —
the result does not depend on the environment overrides, cache entries or
system paths, so no fallback candidate is consulted. -/
theorem C2_expected_path_ok (fs fsPost : FS) (p : String) (env : EnvOverrides)
    (cacheEntries : List (String × Option Int)) (systemPaths : List String)
    (allowInstall : Bool) (installStatus : Int)
    (hne : p ≠ "") (hex : fs.existsSync p = true) (hxc : fs.isExec p = true) :
    resolveChromium fs fsPost (some p) env cacheEntries systemPaths allowInstall
        installStatus
      = (false, .ok
          { status := "ok", executablePath := p,
            revision := extractRevisionFromPath (some p),
            expectedRevision := extractRevisionFromPath (some p),
            isFallback := false, source := "default" }) := by
  simp only [resolveChromium]
  rw [if_pos]
  · rfl
  · simp [expectedPathOk, hne, hex]

/-- C2, witness at the fixture filesystem holding the expected path. -/
theorem C2_expected_path_ok_witness :
    (("/exp/chromium-1000/chrome" : String) ≠ "" ∧
      fsExp.existsSync "/exp/chromium-1000/chrome" = true ∧
      fsExp.isExec "/exp/chromium-1000/chrome" = true) ∧
    resolveChromium fsExp fsExp (some "/exp/chromium-1000/chrome") envOverride
        [("/cache/chromium-1000/chrome", some 1000)] ["/usr/bin/chromium"] true 0
      = (false, .ok
          { status := "ok", executablePath := "/exp/chromium-1000/chrome",
            revision := extractRevisionFromPath (some "/exp/chromium-1000/chrome"),
            expectedRevision := extractRevisionFromPath (some "/exp/chromium-1000/chrome"),
            isFallback := false, source := "default" }) :=
  ⟨⟨by decide, by decide, by decide⟩,
    C2_expected_path_ok fsExp fsExp "/exp/chromium-1000/chrome" envOverride
      [("/cache/chromium-1000/chrome", some 1000)] ["/usr/bin/chromium"] true 0
      (by decide) (by decide) (by decide)⟩

/-- C3: for an expected revision R and a candidate set holding candidates
with revisions R-2, R+5 and unknown, the ranking selects the R-2
candidate (in any candidate order), and the comparator scores R-2 before
R+5 and both revision-bearing candidates before the unknown-revision one
(unknown revisions score worst). -/
theorem C3_revision_scoring (R : Int) (pa pb pc : String) (l : List Candidate)
    (hperm : List.Perm l
      [⟨pa, some (R - 2), "cache"⟩, ⟨pb, some (R + 5), "cache"⟩,
        ⟨pc, none, "cache"⟩]) :
    rankCandidates (some R) l = some ⟨pa, some (R - 2), "cache"⟩ ∧
    candCompare (some R) ⟨pa, some (R - 2), "cache"⟩ ⟨pb, some (R + 5), "cache"⟩ < 0 ∧
    candCompare (some R) ⟨pa, some (R - 2), "cache"⟩ ⟨pc, none, "cache"⟩ < 0 ∧
    candCompare (some R) ⟨pb, some (R + 5), "cache"⟩ ⟨pc, none, "cache"⟩ < 0 := by
  have hs1 : score (some R) ⟨pa, some (R - 2), "cache"⟩ = (((R - 2) - R).natAbs : Int) :=
    score_rev_some R (R - 2) _ rfl
  have hs2 : score (some R) ⟨pb, some (R + 5), "cache"⟩ = (((R + 5) - R).natAbs : Int) :=
    score_rev_some R (R + 5) _ rfl
  have hs3 : score (some R) ⟨pc, none, "cache"⟩ = MAX_SAFE_INTEGER :=
    score_rev_none R _ rfl
  have hlt1 : candCompare (some R) ⟨pa, some (R - 2), "cache"⟩
      ⟨pb, some (R + 5), "cache"⟩ < 0 := by
    rw [candCompare_lt_iff, hs1, hs2]
    left
    omega
  have hlt2 : candCompare (some R) ⟨pa, some (R - 2), "cache"⟩
      ⟨pc, none, "cache"⟩ < 0 := by
    rw [candCompare_lt_iff, hs1, hs3, MSI_eq]
    left
    omega
  have hlt3 : candCompare (some R) ⟨pb, some (R + 5), "cache"⟩
      ⟨pc, none, "cache"⟩ < 0 := by
    rw [candCompare_lt_iff, hs2, hs3, MSI_eq]
    left
    omega
  refine ⟨?_, hlt1, hlt2, hlt3⟩
  have hne : l ≠ [] := by
    intro h0
    rw [h0] at hperm
    have := hperm.length_eq
    simp at this
  cases hsort : sortC (candCompare (some R)) l with
  | nil =>
    exfalso
    have := (sortC_perm (candCompare (some R)) l).length_eq
    rw [hsort] at this
    exact hne (List.length_eq_zero.mp this.symm)
  | cons m t =>
    have hmin := sortC_head_min (candCompare_total (some R))
      (candCompare_trans (some R)) hsort
    have hm_mem : m ∈ l := by
      have : m ∈ sortC (candCompare (some R)) l := by
        rw [hsort]
        exact List.mem_cons_self m t
      exact (sortC_perm (candCompare (some R)) l).mem_iff.mp this
    have hm3 := hperm.mem_iff.mp hm_mem
    have hcm2_mem : (⟨pa, some (R - 2), "cache"⟩ : Candidate) ∈ l :=
      hperm.mem_iff.mpr (by simp)
    have hle := candCompare_le_score (some R) _ _ (hmin _ hcm2_mem)
    rw [hs1] at hle
    have hm_eq : m = ⟨pa, some (R - 2), "cache"⟩ := by
      simp only [List.mem_cons, List.not_mem_nil, or_false] at hm3
      rcases hm3 with h | h | h
      · exact h
      · exfalso
        rw [h, hs2] at hle
        omega
      · exfalso
        rw [h, hs3, MSI_eq] at hle
        omega
    unfold rankCandidates
    rw [if_neg (by simpa [List.isEmpty_iff] using hne), hsort, hm_eq]
    rfl

/-- C3, witness: expected revision 1100 with candidate revisions 1098,
1105 and unknown, candidates listed with the best one last. -/
theorem C3_revision_scoring_witness :
    List.Perm
      ([⟨"/c", none, "cache"⟩, ⟨"/b", some 1105, "cache"⟩,
        ⟨"/a", some 1098, "cache"⟩] : List Candidate)
      [⟨"/a", some (1100 - 2), "cache"⟩, ⟨"/b", some (1100 + 5), "cache"⟩,
        ⟨"/c", none, "cache"⟩] ∧
    rankCandidates (some 1100)
        [⟨"/c", none, "cache"⟩, ⟨"/b", some 1105, "cache"⟩,
          ⟨"/a", some 1098, "cache"⟩]
      = some ⟨"/a", some (1100 - 2), "cache"⟩ :=
  ⟨by decide,
    (C3_revision_scoring 1100 "/a" "/b" "/c"
      [⟨"/c", none, "cache"⟩, ⟨"/b", some 1105, "cache"⟩,
        ⟨"/a", some 1098, "cache"⟩] (by decide)).1⟩

/-- C4: when the expected-path guard fails but some cache entry has a
non-empty, existing and executable path, `resolveChromium` returns
normally (no thrown error) with status fallback and the selected
candidate's path. -/
theorem C4_fallback (fs fsPost : FS) (expectedPath : Option String)
    (env : EnvOverrides) (cacheEntries : List (String × Option Int))
    (systemPaths : List String) (allowInstall : Bool) (installStatus : Int)
    (p : String) (r : Option Int)
    (hexp : expectedPathOk fs expectedPath = false)
    (hmem : (p, r) ∈ cacheEntries) (hp : p ≠ "") (hx : fs.accessX p = true) :
    ∃ fb,
      findExistingChromium fs env cacheEntries systemPaths
          (extractRevisionFromPath expectedPath) = some fb ∧
      resolveChromium fs fsPost expectedPath env cacheEntries systemPaths
          allowInstall installStatus
        = (false, .ok
            { status := "fallback", executablePath := fb.path,
              revision := jsOrNull fb.revision,
              expectedRevision := extractRevisionFromPath expectedPath,
              isFallback := true, source := fb.source }) := by
  have hin : (p, r, "cache") ∈ candidateInputs env cacheEntries systemPaths := by
    unfold candidateInputs
    exact List.mem_append.mpr (Or.inl (List.mem_append.mpr
      (Or.inr (List.mem_map.mpr ⟨(p, r), hmem, rfl⟩))))
  obtain ⟨c0, hc0, _⟩ := collect_path_mem fs _ hin hp hx
  obtain ⟨m, hm, _, _⟩ := findExisting_min fs env cacheEntries systemPaths
    (extractRevisionFromPath expectedPath) hc0
  refine ⟨m, hm, ?_⟩
  simp only [resolveChromium]
  rw [if_neg (by simp [hexp]), hm]

/-- C4, witness: the expected path is absent and one executable cache
entry is present. -/
theorem C4_fallback_witness :
    (expectedPathOk fsCache (some "/exp/chromium-1000/chrome") = false ∧
      ("/cache/chromium-1000/chrome", (some 1000 : Option Int)) ∈
        [("/cache/chromium-1000/chrome", (some 1000 : Option Int))] ∧
      ("/cache/chromium-1000/chrome" : String) ≠ "" ∧
      fsCache.accessX "/cache/chromium-1000/chrome" = true) ∧
    (∃ fb,
      findExistingChromium fsCache envNone
          [("/cache/chromium-1000/chrome", some 1000)] []
          (extractRevisionFromPath (some "/exp/chromium-1000/chrome")) = some fb ∧
      resolveChromium fsCache fsCache (some "/exp/chromium-1000/chrome") envNone
          [("/cache/chromium-1000/chrome", some 1000)] [] false 0
        = (false, .ok
            { status := "fallback", executablePath := fb.path,
              revision := jsOrNull fb.revision,
              expectedRevision :=
                extractRevisionFromPath (some "/exp/chromium-1000/chrome"),
              isFallback := true, source := fb.source })) :=
  ⟨⟨by decide, by decide, by decide, by decide⟩,
    C4_fallback fsCache fsCache (some "/exp/chromium-1000/chrome") envNone
      [("/cache/chromium-1000/chrome", some 1000)] [] false 0
      "/cache/chromium-1000/chrome" (some 1000)
      (by decide) (by decide) (by decide) (by decide)⟩

/-- C5: every candidate recorded by folding `addCandidate` over any raw
inputs (environment, cache or system sourced) has a path that exists on
the filesystem and is executable, since `addCandidate` only records a
path whose X_OK access check succeeds. -/
theorem C5_candidate_invariant (fs : FS)
    (inputs : List (String × Option Int × String)) :
    ∀ c ∈ collectCandidates fs inputs,
      fs.existsSync c.path = true ∧ fs.isExec c.path = true := by
  intro c hc
  have h := collect_exec fs inputs c hc
  simpa [FS.accessX, Bool.and_eq_true] using h

/-- C5, witness: one executable path is recorded, a missing one is not. -/
theorem C5_candidate_invariant_witness :
    (⟨"/cache/chromium-1000/chrome", some 1000, "cache"⟩ : Candidate) ∈
        collectCandidates fsCache
          [("/cache/chromium-1000/chrome", some 1000, "cache"),
            ("/missing/chrome", none, "system")] ∧
    (fsCache.existsSync "/cache/chromium-1000/chrome" = true ∧
      fsCache.isExec "/cache/chromium-1000/chrome" = true) :=
  ⟨by decide,
    C5_candidate_invariant fsCache
      [("/cache/chromium-1000/chrome", some 1000, "cache"),
        ("/missing/chrome", none, "system")]
      ⟨"/cache/chromium-1000/chrome", some 1000, "cache"⟩ (by decide)⟩

/-- C6, counterexample: when the conversion work inside the try block
throws, the catch block of `convertHTMLToPDF` calls `process.exit(1)`,
which terminates the process before the finally block runs, so the
launched browser is never closed: the trace ends without a closeBrowser
event. -/
theorem C6_counterexample :
    convertHTMLToPDFModel true "ok" none true ([], .thrown)
      = ([.resolveBrowser, .launchBrowser, .consoleError], .exited 1) ∧
    Ev.closeBrowser ∉
      (convertHTMLToPDFModel true "ok" none true ([], .thrown)).1 ∧
    Ev.launchBrowser ∈
      (convertHTMLToPDFModel true "ok" none true ([], .thrown)).1 := by
  refine ⟨rfl, ?_, ?_⟩ <;> decide

/-- C6, amended: once the browser is launched, it is closed by the
finally block when the conversion body completes normally; when the body
throws, the catch handler exits the process with code 1 before the
finally block executes, and the browser is not closed. -/
theorem C6_amended (bodyEvs : List Ev) :
    convertHTMLToPDFModel true "ok" none true (bodyEvs, .normal)
      = ([.resolveBrowser, .launchBrowser] ++ bodyEvs ++ [.closeBrowser], .normal) ∧
    convertHTMLToPDFModel true "ok" none true (bodyEvs, .thrown)
      = ([.resolveBrowser, .launchBrowser] ++ bodyEvs ++ [.consoleError],
          .exited 1) := by
  constructor <;>
    simp [convertHTMLToPDFModel, convertFinish, runTryCatchFinally]

/-- C7: with a missing input file, `convertHTMLToPDF` exits with code 1
having emitted only a console error — no browser resolution and no
browser launch occur — whereas a missing browser exits with the distinct
code 2; 1 and 2 differ. -/
theorem C7_missing_input :
    (∀ (browserStatus : String) (cssCheck : Option Bool) (launchOk : Bool)
        (tryBody : List Ev × Control),
      convertHTMLToPDFModel false browserStatus cssCheck launchOk tryBody
        = ([.consoleError], .exited 1)) ∧
    Ev.resolveBrowser ∉ ([.consoleError] : List Ev) ∧
    Ev.launchBrowser ∉ ([.consoleError] : List Ev) ∧
    (∀ (cssCheck : Option Bool) (launchOk : Bool) (tryBody : List Ev × Control),
      convertHTMLToPDFModel true "missing" cssCheck launchOk tryBody
        = ([.resolveBrowser, .consoleError], .exited 2)) ∧
    (1 : Nat) ≠ 2 := by
  refine ⟨?_, by decide, by decide, ?_, by decide⟩
  · intro browserStatus cssCheck launchOk tryBody
    rfl
  · intro cssCheck launchOk tryBody
    rfl

/-- C8: when the expected-path guard fails and no candidate is found,
`resolveChromium` returns status missing without invoking the installer
when installation is not permitted; when installation is permitted the
installer is invoked, and the result is status installed when the
installer exits 0 and the re-checked expected path now exists, and a
thrown INSTALL_FAILED error otherwise. -/
theorem C8_install_behaviour (fs fsPost : FS) (expectedPath : Option String)
    (env : EnvOverrides) (cacheEntries : List (String × Option Int))
    (systemPaths : List String) (installStatus : Int)
    (hexp : expectedPathOk fs expectedPath = false)
    (hnone : findExistingChromium fs env cacheEntries systemPaths
        (extractRevisionFromPath expectedPath) = none) :
    (resolveChromium fs fsPost expectedPath env cacheEntries systemPaths false
        installStatus
      = (false, .ok
          { status := "missing", executablePath := expectedPath.getD "",
            revision := none,
            expectedRevision := extractRevisionFromPath expectedPath,
            isFallback := false, source := "missing" })) ∧
    ((resolveChromium fs fsPost expectedPath env cacheEntries systemPaths true
        installStatus).1 = true) ∧
    (installStatus = 0 → expectedPathOk fsPost expectedPath = true →
      resolveChromium fs fsPost expectedPath env cacheEntries systemPaths true
          installStatus
        = (true, .ok
            { status := "installed", executablePath := expectedPath.getD "",
              revision := extractRevisionFromPath expectedPath,
              expectedRevision := extractRevisionFromPath expectedPath,
              isFallback := false, source := "install" })) ∧
    (¬ (installStatus = 0 ∧ expectedPathOk fsPost expectedPath = true) →
      resolveChromium fs fsPost expectedPath env cacheEntries systemPaths true
          installStatus
        = (true, .error "INSTALL_FAILED")) := by
  have hneg : ¬ (expectedPathOk fs expectedPath = true) := by simp [hexp]
  refine ⟨?_, ?_, ?_, ?_⟩
  · simp only [resolveChromium]
    rw [if_neg hneg, hnone]
    rfl
  · simp only [resolveChromium]
    rw [if_neg hneg, hnone]
    simp only [Bool.not_true]
    rw [if_neg (by simp)]
    split <;> rfl
  · intro h0 hpost
    simp only [resolveChromium]
    rw [if_neg hneg, hnone]
    simp only [Bool.not_true]
    rw [if_neg (by simp), if_pos (by simp [h0, hpost])]
  · intro hno
    simp only [resolveChromium]
    rw [if_neg hneg, hnone]
    simp only [Bool.not_true]
    rw [if_neg (by simp), if_neg]
    simp only [Bool.and_eq_true, decide_eq_true_eq]
    exact fun hcond => hno ⟨hcond.1, hcond.2⟩

/-- C8, witness: empty filesystem and no candidates; after a successful
install the expected path exists. -/
theorem C8_install_behaviour_witness :
    (expectedPathOk fsEmpty (some "/exp/chromium-1000/chrome") = false ∧
      findExistingChromium fsEmpty envNone [] []
        (extractRevisionFromPath (some "/exp/chromium-1000/chrome")) = none) ∧
    (resolveChromium fsEmpty fsExp (some "/exp/chromium-1000/chrome") envNone
        [] [] false 0
      = (false, .ok
          { status := "missing",
            executablePath := (some "/exp/chromium-1000/chrome").getD "",
            revision := none,
            expectedRevision :=
              extractRevisionFromPath (some "/exp/chromium-1000/chrome"),
            isFallback := false, source := "missing" })) :=
  ⟨⟨by decide, by decide⟩,
    (C8_install_behaviour fsEmpty fsExp (some "/exp/chromium-1000/chrome")
      envNone [] [] 0 (by decide) (by decide)).1⟩

/-- C9: candidates sourced from the environment-variable overrides are
always recorded with a null revision; a null revision scores
Number.MAX_SAFE_INTEGER against any known expected revision; and whenever
some collected candidate carries a revision (within safe-integer bounds,
as every real revision is), the candidate `findExistingChromium` selects
is never a null-revision one — in particular never an environment
override. -/
theorem C9_env_override_ranking (fs : FS) (env : EnvOverrides)
    (cacheEntries : List (String × Option Int)) (systemPaths : List String)
    (R r : Int) (x : Candidate)
    (hR0 : 0 ≤ R) (hR1 : R < MAX_SAFE_INTEGER)
    (hx : x ∈ collectCandidates fs (candidateInputs env cacheEntries systemPaths))
    (hxrev : x.revision = some r) (hr0 : 0 ≤ r) (hr1 : r < MAX_SAFE_INTEGER) :
    (∀ c ∈ collectCandidates fs (candidateInputs env cacheEntries systemPaths),
        c.source = "env" → c.revision = none) ∧
    (∀ c ∈ collectCandidates fs (candidateInputs env cacheEntries systemPaths),
        c.revision = none → score (some R) c = MAX_SAFE_INTEGER) ∧
    (∀ m, findExistingChromium fs env cacheEntries systemPaths (some R) = some m →
        m.revision ≠ none) := by
  refine ⟨?_, ?_, ?_⟩
  · intro c hc hsrc
    have hmem := collect_mem_inputs fs _ hc
    unfold candidateInputs at hmem
    rcases List.mem_append.mp hmem with h1 | h3
    · rcases List.mem_append.mp h1 with h1a | h1b
      · obtain ⟨q, _, heq⟩ := List.mem_map.mp h1a
        simp only [Prod.mk.injEq] at heq
        exact heq.2.1.symm
      · obtain ⟨e, _, heq⟩ := List.mem_map.mp h1b
        simp only [Prod.mk.injEq] at heq
        rw [hsrc] at heq
        exact absurd heq.2.2 (by decide)
    · obtain ⟨q, _, heq⟩ := List.mem_map.mp h3
      simp only [Prod.mk.injEq] at heq
      rw [hsrc] at heq
      exact absurd heq.2.2 (by decide)
  · intro c hc hrev
    exact score_rev_none R c hrev
  · obtain ⟨m2, hm2, hm2mem, hm2min⟩ := findExisting_min fs env cacheEntries
      systemPaths (some R) hx
    intro m hm hmnone
    rw [hm] at hm2
    obtain rfl : m2 = m := (Option.some.injEq _ _).mp hm2.symm
    have hle := candCompare_le_score (some R) m2 x (hm2min x hx)
    rw [score_rev_none R m2 hmnone, score_rev_some R r x hxrev, MSI_eq] at hle
    rw [MSI_eq] at hR1 hr1
    omega

/-- C9, witness: expected revision 995, an environment override plus a
cache candidate with revision 1000; the selected candidate carries a
revision. -/
theorem C9_env_override_ranking_witness :
    (0 ≤ (995 : Int) ∧ (995 : Int) < MAX_SAFE_INTEGER ∧
      (⟨"/cache/chromium-1000/chrome", some 1000, "cache"⟩ : Candidate) ∈
        collectCandidates fsCache
          (candidateInputs envOverride
            [("/cache/chromium-1000/chrome", some 1000)] []) ∧
      (⟨"/cache/chromium-1000/chrome", some 1000, "cache"⟩ : Candidate).revision
        = some 1000 ∧
      0 ≤ (1000 : Int) ∧ (1000 : Int) < MAX_SAFE_INTEGER) ∧
    (∀ m, findExistingChromium fsCache envOverride
        [("/cache/chromium-1000/chrome", some 1000)] [] (some 995) = some m →
      m.revision ≠ none) :=
  ⟨⟨by decide, by decide, by decide, by decide, by decide, by decide⟩,
    (C9_env_override_ranking fsCache envOverride
      [("/cache/chromium-1000/chrome", some 1000)] [] 995 1000
      ⟨"/cache/chromium-1000/chrome", some 1000, "cache"⟩
      (by decide) (by decide) (by decide) (by decide) (by decide)
      (by decide)).2.2⟩

/-- C10: when two candidates have equal score, the comparator orders the
one with the numerically higher revision (null revision read as 0) first,
so ties in score are broken by descending revision, in either input
order of the stable sort. -/
theorem C10_score_tie_descending_revision (er : Option Int) (a b : Candidate)
    (hs : score er a = score er b) (hrev : revD b < revD a) :
    candCompare er a b < 0 ∧
    sortC (candCompare er) [a, b] = [a, b] ∧
    sortC (candCompare er) [b, a] = [a, b] := by
  have hlt : candCompare er a b < 0 :=
    (candCompare_lt_iff er a b).mpr (Or.inr ⟨hs, hrev⟩)
  have hle : candCompare er a b ≤ 0 := le_of_lt hlt
  have hba : ¬ (candCompare er b a ≤ 0) := by
    rw [candCompare_le_iff]
    omega
  refine ⟨hlt, ?_, ?_⟩
  · simp [sortC, insertC, hle]
  · simp [sortC, insertC, hba]

/-- C10, witness: expected revision 10 and candidates with revisions 12
and 8, both at score 2. -/
theorem C10_score_tie_descending_revision_witness :
    (score (some 10) ⟨"/a", some 12, "cache"⟩
        = score (some 10) ⟨"/b", some 8, "cache"⟩ ∧
      revD ⟨"/b", some 8, "cache"⟩ < revD ⟨"/a", some 12, "cache"⟩) ∧
    (candCompare (some 10) ⟨"/a", some 12, "cache"⟩ ⟨"/b", some 8, "cache"⟩ < 0 ∧
      sortC (candCompare (some 10))
          [⟨"/a", some 12, "cache"⟩, ⟨"/b", some 8, "cache"⟩]
        = [⟨"/a", some 12, "cache"⟩, ⟨"/b", some 8, "cache"⟩] ∧
      sortC (candCompare (some 10))
          [⟨"/b", some 8, "cache"⟩, ⟨"/a", some 12, "cache"⟩]
        = [⟨"/a", some 12, "cache"⟩, ⟨"/b", some 8, "cache"⟩]) :=
  ⟨⟨by decide, by decide⟩,
    C10_score_tie_descending_revision (some 10) ⟨"/a", some 12, "cache"⟩
      ⟨"/b", some 8, "cache"⟩ (by decide) (by decide)⟩

end KimiSkills
